import Mathlib

/-!
Shallow embedding of the deletable-transform-files bot: the main module
(environment parsing, file resolver, download pipeline, notification
composer, callback handlers) and logger.mts (timestamped console logging
with per-label thread counters).

Side-effecting handlers are embedded as pure functions returning the list
of external actions they perform, in order: platform calls (send, edit,
delete, answerCbQuery, getFileLink), filesystem calls (access, rm, write)
and non-debug log lines. Outcomes of fallible collaborators (filesystem
probes, downloads) are passed in as parameters, as in the source they are
awaited results.
-/

/-- Characters the ECMAScript parseInt trims before reading digits
(the ASCII portion of StrWhiteSpace, which covers the inputs here). -/
def isJsSpace (c : Char) : Bool :=
  c = ' ' || c = '\t' || c = '\n' || c = '\r' || c = '\x0b' || c = '\x0c'

/-- Trim JS whitespace from both ends of a character list. -/
def trimJs (l : List Char) : List Char :=
  ((l.dropWhile isJsSpace).reverse.dropWhile isJsSpace).reverse

/-- Numeric value of one digit character, any base up to 36. -/
def digitVal (c : Char) : Option Nat :=
  if '0' ≤ c ∧ c ≤ '9' then some (c.toNat - '0'.toNat)
  else if 'a' ≤ c ∧ c ≤ 'z' then some (c.toNat - 'a'.toNat + 10)
  else if 'A' ≤ c ∧ c ≤ 'Z' then some (c.toNat - 'A'.toNat + 10)
  else none

/-- Longest prefix of digits valid in the given radix, as digit values. -/
def takeDigits (radix : Nat) : List Char → List Nat
  | [] => []
  | c :: rest =>
    match digitVal c with
    | some d => if d < radix then d :: takeDigits radix rest else []
    | none => []

/-- ECMAScript parseInt(string, radix): trim, optional sign, radix
normalisation (0 means decimal unless a 0x prefix means hex; a radix
outside 2..36 yields NaN), then the longest valid digit prefix; no digits
yields NaN. NaN is modelled as `none`. -/
def jsParseInt (s : String) (radix : Nat) : Option Int :=
  let chars := trimJs s.toList
  let sign : Int := match chars with
    | '-' :: _ => -1
    | _ => 1
  let body := match chars with
    | '-' :: r => r
    | '+' :: r => r
    | r => r
  if radix ≠ 0 ∧ (radix < 2 ∨ radix > 36) then none
  else
    let hexPrefix := (radix = 0 ∨ radix = 16)
    let body2 := if hexPrefix then
        match body with
        | '0' :: 'x' :: tl => tl
        | '0' :: 'X' :: tl => tl
        | r => r
      else body
    let effRadix := if radix = 0 then
        (match body with
         | '0' :: 'x' :: _ => 16
         | '0' :: 'X' :: _ => 16
         | _ => 10)
      else radix
    let ds := takeDigits effRadix body2
    if ds = [] then none
    else some (sign * (ds.foldl (fun a d => a * effRadix + d) 0 : Nat))

/-- JavaScript String.prototype.split on a single separator character. -/
def jsSplitChar (sep : Char) : List Char → List (List Char)
  | [] => [[]]
  | c :: rest =>
    match jsSplitChar sep rest with
    | g :: gs => if c = sep then [] :: g :: gs else (c :: g) :: gs
    | [] => [[c]]

/-- Split a string on commas, as the split on a comma literal does. -/
def splitCommas (s : String) : List String :=
  (jsSplitChar ',' s.toList).map List.asString

/-- Line 56 of the main module:
getEnv of ENABLE_GROUPS, then split on commas, then map with Number.parseInt.
Array.prototype.map hands the callback (element, index, array), so the
element index is passed to parseInt as the radix. -/
def enableGroupsOf (s : String) : List (Option Int) :=
  (splitCommas s).mapIdx fun i t => jsParseInt t i

/-- Modelled from the spec: ENABLE_GROUPS is a comma-separated list of
integer chat identifiers, each read as an ordinary (base ten) integer.
Spec-side definition, to be compared with `enableGroupsOf`. -/
def specEnableGroups (s : String) : List (Option Int) :=
  (splitCommas s).map fun t => jsParseInt t 10

/-- Line 156: `enableGroups.includes( ctx.chat.id )`. A NaN entry (`none`)
never equals an actual chat id. -/
def chatAllowed (s : String) (chatId : Int) : Bool :=
  (enableGroupsOf s).any fun o => o = some chatId

/-- JavaScript Number.prototype.toString(16) for a nonnegative integer:
lowercase hexadecimal digits, most significant first. -/
def jsToHex (n : Nat) : String :=
  (Nat.toDigits 16 n).asString

/-- node path.extname on a character list: the part of the basename (after
the last slash) from its last dot on, empty when there is no dot, when the
dot starts the basename (dotfiles), or when the basename is "..". -/
def extnameChars (l : List Char) : List Char :=
  let bn := (l.reverse.takeWhile (fun c => c ≠ '/')).reverse
  let revTail := bn.reverse.takeWhile (fun c => c ≠ '.')
  if revTail.length = bn.length then []
  else
    let i := bn.length - revTail.length - 1
    if i = 0 then []
    else if bn = ['.', '.'] then []
    else bn.drop i

/-- Lines 119-121: the generated filename. The random draw
`crypto.randomInt( 16^8, 16^9 )` is a parameter; the extension is
`path.extname( url.href ).toLowerCase()`. -/
def fileNameOf (n : Nat) (href : String) : String :=
  jsToHex n ++ ((extnameChars href.toList).map Char.toLower).asString

/-- Character class `[\da-f]` of the action routing regexes. -/
def isHexDigitLower (c : Char) : Bool :=
  ('0' ≤ c && c ≤ '9') || ('a' ≤ c && c ≤ 'f')

/-- Character class `[a-z]`. -/
def isLowerAlpha (c : Char) : Bool :=
  'a' ≤ c && c ≤ 'z'

/-- Whether a character list matches the anchored filename pattern
`[\da-f]+\.[a-z]+` shared by both bot.action regexes. The hex class and
the dot are disjoint, so the match is the maximal hex prefix, one dot,
then one or more lowercase letters to the end. -/
def matchFilePat (l : List Char) : Bool :=
  let hex := l.takeWhile isHexDigitLower
  let rest := l.drop hex.length
  decide (hex ≠ []) &&
    match rest with
    | '.' :: ext => decide (ext ≠ []) && ext.all isLowerAlpha
    | _ => false

/-- Whether a character list matches the pattern the spec claims for
generated filenames, `[0-9a-f]\x7b8,9\x7d\.[a-z]+` anchored at both ends. -/
def matchClaimPat (l : List Char) : Bool :=
  let hex := l.takeWhile isHexDigitLower
  let rest := l.drop hex.length
  (decide (hex.length = 8) || decide (hex.length = 9)) &&
    match rest with
    | '.' :: ext => decide (ext ≠ []) && ext.all isLowerAlpha
    | _ => false

/-- The platform dispatches a pressed button payload to a bot.action
handler only when one of the two anchored regexes
`exist:(?<file>[\da-f]+\.[a-z]+)` or `remove:(?<file>[\da-f]+\.[a-z]+)`
matches; otherwise the callback is ignored. -/
def actionDispatch (payload : String) : Option (String × String) :=
  let l := payload.toList
  if l.take 6 = "exist:".toList ∧ matchFilePat (l.drop 6) then
    some ("exist", (l.drop 6).asString)
  else if l.take 7 = "remove:".toList ∧ matchFilePat (l.drop 7) then
    some ("remove", (l.drop 7).asString)
  else none

/-- A filesystem error as the handlers see it: the branch testing the error code against ENOENT versus anything else; each carries its util.inspect rendering. -/
inductive FsErr where
  | enoent (inspect : String)
  | other (inspect : String)
deriving DecidableEq

/-- util.inspect text of a filesystem error. -/
def FsErr.inspectText : FsErr → String
  | .enoent s => s
  | .other s => s

/-- A send target: a numeric chat id (ctx.sendMessage) or a channel
identifier string (bot.telegram.sendMessage( infoChannel, ... )). -/
inductive ChatRef where
  | id (i : Int)
  | name (s : String)
deriving DecidableEq

/-- One external action of a handler, in the order the source performs
them. `sendMessage` carries the optional inline-button callback payload. -/
inductive BotAct where
  | logInfo (text : String)
  | logWarn (text : String)
  | logError (text : String)
  | fsAccess (path : String) (write : Bool)
  | fsRm (path : String)
  | fsWrite (path : String)
  | getFileLink (fileId : String)
  | sendMessage (chat : ChatRef) (text : String) (button : Option String)
  | answerCb (text : String) (cacheTime : Option Nat) (showAlert : Bool)
  | editMessageText (chatId : Int) (messageId : Int) (text : String)
  | deleteMessage (chatId : Int) (messageId : Int)
deriving DecidableEq

/-- Whether an action mutates the filesystem. -/
def isFsMutation : BotAct → Bool
  | .fsRm _ => true
  | .fsWrite _ => true
  | _ => false

/-- node path.join of the save directory and a filename, modelled as
separator concatenation; the handlers only pass the joined path onward. -/
def pathJoin (a b : String) : String :=
  a ++ "/" ++ b

/-- The fields of ctx.callbackQuery.message the remove handler reads:
the chat id, the message id and the message date (seconds). -/
structure CbMessage where
  chat_id : Int
  message_id : Int
  date : Int
deriving DecidableEq

/-- bot.action exist handler body, after the regex has bound `file`:
probe read access to savePath/file; success acknowledges
the is-exist text, an ENOENT failure acknowledges the text saying the
file does not exist, any other failure is logged at error severity and acknowledged
with a generic failure message, each with cache_time 0. -/
def existHandler (savePath file : String) (access : Option FsErr) : List BotAct :=
  BotAct.fsAccess (pathJoin savePath file) false ::
  match access with
  | none =>
    [BotAct.answerCb ("File " ++ file ++ " is exist.") (some 0) false]
  | some (.enoent _) =>
    [BotAct.answerCb ("File " ++ file ++ " isn\x27t exist.") (some 0) false]
  | some (.other e) =>
    [BotAct.logError e,
     BotAct.answerCb "Fail to resolve file." (some 0) false]

/-- Lines 274-291: after the final isExist is known, either edit or delete
depending on the age of the callback message, then acknowledge. The
source passes `ctx.callbackQuery.from.id` and `message.chat.id` as the
first two arguments of telegram.editMessageText, whose signature is
(chatId, messageId, inlineMessageId, text). -/
def removeFinal (file : String) (fromId : Int) (m : CbMessage) (now : Int)
    (isExist : Bool) : List BotAct :=
  (if m.date * 1000 < now - 48 * 3600 * 1000 then
    [BotAct.editMessageText fromId m.chat_id ("File " ++ file ++ " has been removed.")]
  else
    [BotAct.deleteMessage m.chat_id m.message_id]) ++
  [BotAct.answerCb
    (if isExist then "Delete " ++ file ++ " success."
     else "File" ++ file ++ " has been removed.")
    (some 3600) true]

/-- bot.action remove handler body, after the regex has bound `file`.
`access` is the outcome of the read+write probe, `rmRes` the outcome of
fs.promises.rm when it is reached; `now` is Date.now() in milliseconds. -/
def removeHandler (savePath file : String) (fromId : Int)
    (msg : Option CbMessage) (now : Int)
    (access : Option FsErr) (rmRes : Option FsErr) : List BotAct :=
  match msg with
  | none =>
    [BotAct.logWarn "message is null.",
     BotAct.answerCb "Internal error." (some 0) false]
  | some m =>
    BotAct.fsAccess (pathJoin savePath file) true ::
    match access with
    | some (.enoent _) => removeFinal file fromId m now false
    | some (.other e) =>
      [BotAct.logError e,
       BotAct.answerCb ("Fail to resolve file " ++ file ++ " .") (some 0) false]
    | none =>
      BotAct.fsRm (pathJoin savePath file) ::
      match rmRes with
      | some e =>
        [BotAct.logError e.inspectText,
         BotAct.answerCb ("Fail to resolve file " ++ file ++ " .") none false]
      | none =>
        BotAct.logInfo ("file " ++ file ++ " is removed.") ::
        removeFinal file fromId m now true

/-- A photo resolution variant (typegram PhotoSize). -/
structure PhotoSize where
  file_id : String
  file_unique_id : String
  width : Nat
  height : Nat
  file_size : Option Nat
deriving DecidableEq

/-- A non-photo attachment (sticker, audio, voice, video or document);
only the fields the resolver forwards are modelled. -/
structure DocLike where
  file_id : String
  file_unique_id : String
  file_size : Option Nat
deriving DecidableEq

/-- An inbound message as the resolver inspects it: each attachment key
is present or not (the key-in-message tests of lines 84 and 102-111). -/
structure Msg where
  photo : Option (List PhotoSize)
  sticker : Option DocLike
  audio : Option DocLike
  voice : Option DocLike
  video : Option DocLike
  document : Option DocLike
deriving DecidableEq

/-- The result of the resolver: the chosen attachment tagged with its kind. -/
structure FileRec where
  file_type : String
  file_id : String
  file_unique_id : String
  file_size : Option Nat
deriving DecidableEq

/-- Declared size with an absent size read as 0, as `p.file_size || 0`. -/
def photoKey (p : PhotoSize) : Nat :=
  p.file_size.getD 0

/-- Lines 85-92: the selection loop over message.photo. The state is the
current pick `tmp` and `sz`; an element replaces the pick when `tmp` is
still undefined or its file_size is truthy (present and nonzero) and
greater than `sz`. -/
def selectPhotoLoop : Option PhotoSize → Nat → List PhotoSize → Option PhotoSize
  | tmp, _, [] => tmp
  | tmp, sz, p :: rest =>
    let cond : Bool :=
      match tmp with
      | none => true
      | some _ =>
        match p.file_size with
        | none => false
        | some k => decide (k ≠ 0) && decide (k > sz)
    if cond then selectPhotoLoop (some p) (photoKey p) rest
    else selectPhotoLoop tmp sz rest

/-- The whole photo-selection pass, starting from `tmp = undefined` and
`sz = 0`. -/
def selectPhoto (l : List PhotoSize) : Option PhotoSize :=
  selectPhotoLoop none 0 l

/-- Modelled from the spec: the first-encountered element attaining the
maximum key, ties kept at the earlier element. Spec-side definition, to
be compared with `selectPhoto`. -/
def firstMax {α : Type} (key : α → Nat) : List α → Option α
  | [] => none
  | a :: l =>
    match firstMax key l with
    | none => some a
    | some b => if key b > key a then some b else some a

/-- getFileIds: a present photo set is tried first (largest-size
selection); when it yields nothing, the keys sticker, audio, voice,
video, document are tried in that order; otherwise no attachment. -/
def getFileIds (m : Msg) : Option FileRec :=
  let rest :=
    match m.sticker with
    | some f => some (FileRec.mk "sticker" f.file_id f.file_unique_id f.file_size)
    | none =>
      match m.audio with
      | some f => some (FileRec.mk "audio" f.file_id f.file_unique_id f.file_size)
      | none =>
        match m.voice with
        | some f => some (FileRec.mk "voice" f.file_id f.file_unique_id f.file_size)
        | none =>
          match m.video with
          | some f => some (FileRec.mk "video" f.file_id f.file_unique_id f.file_size)
          | none =>
            match m.document with
            | some f => some (FileRec.mk "document" f.file_id f.file_unique_id f.file_size)
            | none => none
  match m.photo with
  | some l =>
    match selectPhoto l with
    | some tmp => some (FileRec.mk "photo" tmp.file_id tmp.file_unique_id tmp.file_size)
    | none => rest
  | none => rest

/-- Replace every occurrence of one character by a replacement string, the
meaning of `.replace( /c/g, rep )` for a single-character pattern. -/
def replaceCharAll (c : Char) (rep : List Char) (l : List Char) : List Char :=
  l.flatMap fun x => if x = c then rep else [x]

/-- Lines 145-148: the escaping applied to each interpolated value, three
global replacements in source order: ampersand, then less-than, then
greater-than. -/
def escValueChars (l : List Char) : List Char :=
  replaceCharAll '>' "&gt;".toList
    (replaceCharAll '<' "&lt;".toList
      (replaceCharAll '&' "&amp;".toList l))

/-- String form of `escValueChars`. -/
def escValue (s : String) : String :=
  (escValueChars s.toList).asString

/-- Modelled from the spec: the escaping rule as one pass replacing
exactly ampersand, less-than and greater-than by their entities and
leaving every other character unchanged. Spec-side definition, to be
compared with `escValueChars`. -/
def escCharSpec (c : Char) : List Char :=
  if c = '&' then "&amp;".toList
  else if c = '<' then "&lt;".toList
  else if c = '>' then "&gt;".toList
  else [c]

/-- One-pass spec-side escaping of a whole character list. -/
def escSpecChars (l : List Char) : List Char :=
  l.flatMap escCharSpec

/-- String form of `escSpecChars`. -/
def escSpec (s : String) : String :=
  (escSpecChars s.toList).asString

/-- Lines 137-151: the escape tagged-template function. While patterns
remain, shift one format part (an exhausted shift coerces to the string
"undefined") and one escaped pattern onto the result; then append the
remaining format parts. Patterns arrive already stringified, as
`String( cPatterns.shift() )` does. -/
def escapeTemplate : List String → List String → String
  | fs, [] => String.join fs
  | fs, p :: ps =>
    (match fs with
     | [] => "undefined"
     | f :: _ => f) ++ escValue p ++ escapeTemplate fs.tail ps

/-- Modelled from the spec: format parts interleaved verbatim with
escaped interpolated values. Spec-side definition, to be compared with
`escapeTemplate` under the tagged-template shape (one more format part
than patterns). -/
def specInterleave : List String → List String → String
  | fs, [] => String.join fs
  | [], _ :: _ => ""
  | f :: fs, p :: ps => f ++ escSpec p ++ specInterleave fs ps

/-- The environment configuration the handler closes over. -/
structure Config where
  savePath : String
  domain : String
  enableGroups : String
  infoChannel : String

/-- Lines 182-188: the notification text, five escape-template lines
joined by newlines. `rawJson` stands for `JSON.stringify( file )`. -/
def composeText (fromId chatId : Int) (fileId fileUid : String)
    (domain fileName rawJson : String) : String :=
  String.intercalate "\n" [
    escapeTemplate ["from: ", ""] [toString fromId],
    escapeTemplate ["to: ", ""] [toString chatId],
    escapeTemplate ["file: <code>", "</code> (unique: <code>", "</code>)"] [fileId, fileUid],
    escapeTemplate ["url: ", "/files/", ""] [domain, fileName],
    escapeTemplate ["raw: <code>", "</code>"] [rawJson]
  ]

/-- The bot.on message handler. A chat id outside the allow-list or a
message without an attachment returns before any further action. `dl` is
the download outcome: on success the random draw and the resolved URL
href (processFile then performs getFileLink, the streamed write and an
info log line); on failure the util.inspect text of the caught error. -/
def onMessage (cfg : Config) (fromId chatId : Int) (m : Msg)
    (dl : Except String (Nat × String)) (rawJson : String) : List BotAct :=
  if chatAllowed cfg.enableGroups chatId then
    match getFileIds m with
    | none => []
    | some file =>
      match dl with
      | .error e =>
        [BotAct.getFileLink file.file_id,
         BotAct.logError e,
         BotAct.sendMessage (ChatRef.id chatId) "Fail to resolve file." none]
      | .ok (n, href) =>
        let fileName := fileNameOf n href
        let text := composeText fromId chatId file.file_id file.file_unique_id
          cfg.domain fileName rawJson
        [BotAct.getFileLink file.file_id,
         BotAct.fsWrite (pathJoin cfg.savePath fileName),
         BotAct.logInfo ("file " ++ fileName ++ " is created."),
         BotAct.sendMessage (ChatRef.id chatId) text (some ("exist:" ++ fileName)),
         BotAct.sendMessage (ChatRef.name cfg.infoChannel) text (some ("remove:" ++ fileName))]
  else []

/-- Trailing arguments util.format appends space-separated once the
format string is exhausted. -/
def joinExtra : List String → String
  | [] => ""
  | a :: rest => " " ++ a ++ joinExtra rest

/-- The util.format subset the logger exercises: percent-s and percent-d
substitute the next argument (arguments arrive already stringified),
other characters pass through, leftover arguments are appended
space-separated, leftover directives are kept verbatim. -/
def formatS : List Char → List String → String
  | [], args => joinExtra args
  | '%' :: 's' :: tl, a :: rest => a ++ formatS tl rest
  | '%' :: 's' :: tl, [] => "%s" ++ formatS tl []
  | '%' :: 'd' :: tl, a :: rest => a ++ formatS tl rest
  | '%' :: 'd' :: tl, [] => "%d" ++ formatS tl []
  | c :: tl, args => String.singleton c ++ formatS tl args

/-- A writer as the logger composes them: from the DEBUG-unset flag as
sampled at the call, a message and its trailing arguments, to the
emitted line, or none when suppressed. -/
def LogWriter : Type :=
  Bool → String → List String → Option String

/-- The console sink: prints util.format of all the arguments. -/
def consoleSink : LogWriter :=
  fun _ message optionalParams => some (formatS message.toList optionalParams)

/-- makeLogger (logger.mts lines 5-21): when a stop function is present
and fires at the call, write nothing; otherwise hand the inner writer
the construction-time format plus percent-s, the construction-time
patterns, and util.format of the message and arguments of the call. -/
def makeLoggerW (callFunc : LogWriter) (hasStop : Bool)
    (format : String) (patterns : List String) : LogWriter :=
  fun debugUnset message optionalParams =>
    if hasStop && debugUnset then none
    else callFunc debugUnset (format ++ " %s")
      (patterns ++ [formatS message.toList optionalParams])

/-- internalLog (logger.mts lines 23-33): a console writer whose patterns
are the ISO timestamp taken once, when internalLog runs, and the
uppercased level. `constructedAt` is that timestamp; only the debug
level is built with a stop function. -/
def internalLogW (constructedAt level : String) (hasStop : Bool) : LogWriter :=
  makeLoggerW consoleSink hasStop "[%s] [%s]"
    [constructedAt, (level.toList.map Char.toUpper).asString]

/-- getLogger (logger.mts lines 49-56): wrap a writer with a bracketed
name prefix. -/
def getLoggerW (name : String) (callFunc : LogWriter) : LogWriter :=
  makeLoggerW callFunc false "[%s]" [name]

/-- ISO-8601 timestamp segment of an emitted line: the text between the
leading bracket and the first closing bracket. -/
def isoSegment (line : String) : String :=
  ((line.toList.drop 1).takeWhile (fun c => c ≠ ']')).asString

/-- One step of the process-wide label-to-counter map at a createThread
call (logger.mts lines 59-60): the counter of the label becomes its old value
(0 when absent) plus one. -/
def stepState (m : String → Nat) (label : String) : String → Nat :=
  fun k => if k = label then m label + 1 else m k

/-- Sequence ids returned by successive createThread calls, given the
counter map at the start: each call returns the counter of its label plus one
and updates the map. -/
def idsFrom (m : String → Nat) : List String → List Nat
  | [] => []
  | label :: rest => (m label + 1) :: idsFrom (stepState m label) rest

/-- Sequence ids returned across one process lifetime for a given call
sequence of labels, starting from the empty map. -/
def threadIds (labels : List String) : List Nat :=
  idsFrom (fun _ => 0) labels

/-- A concrete callback message for claim C3: a broadcast in channel
chat -100123, message id 777, sent at Unix second 1700000000. -/
def mOld : CbMessage :=
  CbMessage.mk (-100123) 777 1700000000

/-- Concrete photo set for the C4 witness: sizes 5, 7, 7 — the second
variant is the first maximum. -/
def photosW : List PhotoSize :=
  [PhotoSize.mk "p1" "u1" 10 10 (some 5),
   PhotoSize.mk "p2" "u2" 20 20 (some 7),
   PhotoSize.mk "p3" "u3" 21 21 (some 7)]

/-- Concrete message for the C4 witness. -/
def mPhotoW : Msg :=
  Msg.mk (some photosW) none none none none none

/-! Supporting lemmas. -/

lemma photoCond_eq (p : PhotoSize) (sz : Nat) :
    (match p.file_size with
     | none => false
     | some k => decide (k ≠ 0) && decide (k > sz)) = decide (photoKey p > sz) := by
  rcases hp : p.file_size with _ | k
  · simp [photoKey, hp]
  · rcases k with _ | j
    · simp [photoKey, hp]
    · simp [photoKey, hp]

lemma firstMax_none_iff {α : Type} (key : α → Nat) (l : List α) :
    firstMax key l = none ↔ l = [] := by
  cases l with
  | nil => simp [firstMax]
  | cons x xs =>
    rw [firstMax]
    split
    · simp
    · simp only [List.cons_ne_nil, iff_false]
      split <;> simp

lemma firstMax_le {α : Type} (key : α → Nat) :
    ∀ (l : List α) (b : α), firstMax key l = some b → ∀ a ∈ l, key a ≤ key b := by
  intro l
  induction l with
  | nil => intro b h a ha; cases ha
  | cons x xs ih =>
    intro b h a ha
    rw [firstMax] at h
    split at h
    case _ hnone =>
      injection h with h
      subst h
      have hxs : xs = [] := (firstMax_none_iff key xs).mp hnone
      subst hxs
      rcases List.mem_singleton.mp ha with rfl
      exact le_refl _
    case _ c hc =>
      rcases List.mem_cons.mp ha with rfl | ha'
      · split at h <;> injection h with h <;> subst h
        · omega
        · exact le_refl _
      · have hac := ih c hc a ha'
        split at h <;> injection h with h <;> subst h
        · exact hac
        · omega

lemma firstMax_decomp {α : Type} (key : α → Nat) :
    ∀ (l : List α), l ≠ [] → ∃ r l₁ l₂, firstMax key l = some r ∧ l = l₁ ++ r :: l₂
      ∧ (∀ p ∈ l, key p ≤ key r) ∧ (∀ p ∈ l₁, key p < key r) := by
  intro l
  induction l with
  | nil => intro h; exact absurd rfl h
  | cons x xs ih =>
    intro _
    cases xs with
    | nil =>
      refine ⟨x, [], [], by simp [firstMax], rfl, ?_, ?_⟩
      · intro p hp; rcases List.mem_singleton.mp hp with rfl; exact le_refl _
      · intro p hp; cases hp
    | cons y ys =>
      obtain ⟨r, l₁, l₂, h1, h2, h3, h4⟩ := ih (by simp)
      by_cases hk : key r > key x
      · refine ⟨r, x :: l₁, l₂, ?_, by simp [h2], ?_, ?_⟩
        · rw [firstMax, h1]
          dsimp only
          rw [if_pos hk]
        · intro p hp
          rcases List.mem_cons.mp hp with rfl | hp
          · omega
          · exact h3 p hp
        · intro p hp
          rcases List.mem_cons.mp hp with rfl | hp
          · omega
          · exact h4 p hp
      · refine ⟨x, [], y :: ys, ?_, rfl, ?_, ?_⟩
        · rw [firstMax, h1]
          dsimp only
          rw [if_neg hk]
        · intro p hp
          rcases List.mem_cons.mp hp with rfl | hp
          · exact le_refl _
          · have := h3 p hp; omega
        · intro p hp; cases hp

lemma selectPhotoLoop_eq :
    ∀ (l : List PhotoSize) (t : PhotoSize),
      selectPhotoLoop (some t) (photoKey t) l = firstMax photoKey (t :: l) := by
  intro l
  induction l with
  | nil => intro t; simp [selectPhotoLoop, firstMax]
  | cons p rest ih =>
    intro t
    rw [selectPhotoLoop]
    simp only [photoCond_eq p (photoKey t)]
    by_cases hk : photoKey p > photoKey t
    · rw [if_pos (by simpa using hk), ih p]
      obtain ⟨b, hb⟩ : ∃ b, firstMax photoKey (p :: rest) = some b := by
        rw [firstMax]
        rcases firstMax photoKey rest with _ | c
        · exact ⟨p, rfl⟩
        · dsimp only
          split <;> exact ⟨_, rfl⟩
      have hpb : photoKey p ≤ photoKey b :=
        firstMax_le _ _ _ hb p (List.mem_cons_self _ _)
      have hout : firstMax photoKey (t :: p :: rest) = some b := by
        rw [firstMax]
        rw [hb]
        dsimp only
        rw [if_pos (by omega)]
      rw [hout, hb]
    · rw [if_neg (by simpa using hk), ih t]
      rw [firstMax]
      conv_rhs => rw [firstMax]
      rcases hm : firstMax photoKey rest with _ | b
      · have h2 : firstMax photoKey (p :: rest) = some p := by
          rw [firstMax, hm]
        rw [h2]
        dsimp only
        rw [if_neg hk]
      · have h2 : firstMax photoKey (p :: rest)
            = if photoKey b > photoKey p then some b else some p := by
          rw [firstMax, hm]
        rw [h2]
        by_cases hbp : photoKey b > photoKey p
        · rw [if_pos hbp]
        · rw [if_neg hbp]
          dsimp only
          rw [if_neg hk]
          rw [if_neg (show ¬photoKey b > photoKey t by omega)]

lemma selectPhoto_eq (l : List PhotoSize) :
    selectPhoto l = firstMax photoKey l := by
  cases l with
  | nil => rfl
  | cons p rest =>
    rw [selectPhoto, selectPhotoLoop]
    simp only [if_pos]
    exact selectPhotoLoop_eq rest p

lemma replaceCharAll_append (c : Char) (rep : List Char) (l₁ l₂ : List Char) :
    replaceCharAll c rep (l₁ ++ l₂) = replaceCharAll c rep l₁ ++ replaceCharAll c rep l₂ := by
  simp [replaceCharAll]

lemma escValueChars_append (l₁ l₂ : List Char) :
    escValueChars (l₁ ++ l₂) = escValueChars l₁ ++ escValueChars l₂ := by
  simp [escValueChars, replaceCharAll_append]

lemma escValueChars_single (c : Char) :
    escValueChars [c] = escCharSpec c := by
  by_cases h1 : c = '&'
  · subst h1; decide
  · by_cases h2 : c = '<'
    · subst h2; decide
    · by_cases h3 : c = '>'
      · subst h3; decide
      · simp [escValueChars, replaceCharAll, escCharSpec, h1, h2, h3]

lemma escValueChars_eq_spec (l : List Char) :
    escValueChars l = escSpecChars l := by
  induction l with
  | nil => decide
  | cons c tl ih =>
    have : c :: tl = [c] ++ tl := rfl
    rw [this, escValueChars_append, escValueChars_single, ih]
    simp [escSpecChars]

lemma idsFrom_filter (L : String) :
    ∀ (labels : List String) (m : String → Nat),
      ((labels.zip (idsFrom m labels)).filter (fun p => p.1 == L)).map Prod.snd
        = List.range' (m L + 1) (labels.count L) := by
  intro labels
  induction labels with
  | nil => intro m; simp [idsFrom]
  | cons l rest ih =>
    intro m
    rw [idsFrom]
    by_cases hl : l = L
    · subst hl
      simp only [List.zip_cons_cons, List.filter_cons, beq_self_eq_true, if_pos,
        List.map_cons, List.count_cons, beq_self_eq_true, if_true]
      rw [ih (stepState m l)]
      have h1 : stepState m l l = m l + 1 := by simp [stepState]
      rw [h1]
      rw [List.range'_succ]
    · have hbeq : (l == L) = false := beq_eq_false_iff_ne.mpr hl
      simp only [List.zip_cons_cons, List.filter_cons, hbeq, Bool.false_eq_true, if_false]
      rw [ih (stepState m l)]
      have h1 : stepState m l L = m L := by simp [stepState, Ne.symm hl]
      rw [h1]
      congr 1
      simp [List.count_cons, hbeq]

lemma takeWhile_append_all (p : Char → Bool) (l₁ l₂ : List Char)
    (h : ∀ c ∈ l₁, p c = true) :
    (l₁ ++ l₂).takeWhile p = l₁ ++ l₂.takeWhile p := by
  induction l₁ with
  | nil => simp
  | cons c tl ih =>
    simp only [List.cons_append, List.takeWhile_cons, h c (List.mem_cons_self c tl),
      if_true]
    rw [ih fun d hd => h d (List.mem_cons_of_mem c hd)]

lemma formatS_line_data (a b c : String) :
    (formatS "[%s] [%s] %s".toList [a, b, c]).data
      = '[' :: (a.data ++ (']' :: (" [".data ++ (b.data ++ (']' :: (' ' :: c.data)))))) := by
  show (String.singleton '[' ++ (a ++ formatS "] [%s] %s".toList [b, c])).data = _
  simp [formatS, String.singleton, joinExtra]

lemma isoSegment_line (a b c : String) (h : ∀ ch ∈ a.toList, ch ≠ ']') :
    isoSegment (formatS "[%s] [%s] %s".toList [a, b, c]) = a := by
  unfold isoSegment
  rw [show (formatS "[%s] [%s] %s".toList [a, b, c]).toList
      = (formatS "[%s] [%s] %s".toList [a, b, c]).data from rfl]
  rw [formatS_line_data]
  rw [List.drop_one, List.tail_cons]
  rw [takeWhile_append_all _ a.data _
    (fun ch hch => decide_eq_true (h ch hch))]
  rw [show (']' :: (" [".data ++ (b.data ++ (']' :: (' ' :: c.data))))).takeWhile
      (fun ch => decide (ch ≠ ']')) = [] from rfl]
  rw [List.append_nil]
  rfl

/-! Theorems for the frozen claims, one per claim, with witnesses where a theorem has hypotheses. -/

/-- Claim C1. The claim is that the allow-list contains exactly the
integer chat identifiers listed in the comma-separated ENABLE_GROUPS
value. It does not: Array.prototype.map hands the element index to
Number.parseInt as the radix, so with ENABLE_GROUPS set to "12,34" the
list parses to [12, NaN] (radix 1 always yields NaN) while the spec-side
reading is [12, 34]; a message from the listed chat 34 is then ignored
outright (every inbound event from it produces no action at all), which
the second half of the claim itself says must only happen to chats
outside the allow-list. -/
theorem C1_enable_groups_radix :
    enableGroupsOf "12,34" = [some 12, none]
    ∧ specEnableGroups "12,34" = [some 12, some 34]
    ∧ chatAllowed "12,34" 12 = true
    ∧ chatAllowed "12,34" 34 = false
    ∧ ∀ (savePath domain infoChannel : String) (fromId : Int) (m : Msg)
        (dl : Except String (Nat × String)) (rawJson : String),
        onMessage ⟨savePath, domain, "12,34", infoChannel⟩ fromId 34 m dl rawJson = [] := by
  refine ⟨by decide, by decide, by decide, by decide, ?_⟩
  intro savePath domain infoChannel fromId m dl rawJson
  unfold onMessage
  rw [show chatAllowed "12,34" 34 = false from by decide]
  simp

/-- Claim C2. The claim is that every generated filename matches the
pattern [0-9a-f]+ dot [a-z]+ used by the callback routing. It does not:
the extension appended to the nine hex digits is taken verbatim from the
resolved URL, and a Telegram video resolves to a .mp4 path whose digit
makes both anchored action regexes fail, so the buttons built from such
a filename are silently ignored. Evaluated at the draw 16^8 (in range)
and a .mp4 file link. -/
theorem C2_extension_breaks_routing :
    (16 ^ 8 ≤ 4294967296 ∧ 4294967296 < 16 ^ 9)
    ∧ fileNameOf 4294967296 "https://api.telegram.org/file/bot0/videos/file_1.mp4"
      = "100000000.mp4"
    ∧ matchClaimPat "100000000.mp4".toList = false
    ∧ matchFilePat "100000000.mp4".toList = false
    ∧ actionDispatch "exist:100000000.mp4" = none
    ∧ actionDispatch "remove:100000000.mp4" = none
    ∧ matchFilePat (fileNameOf 4294967296 "https://example.org/f/photo.jpg").toList = true := by
  exact ⟨by decide, by decide, by decide, by decide, by decide, by decide, by decide⟩

/-- Claim C3. The claim is that when the originating broadcast message is
older than 48 hours, the text of that message is edited in place. The handler
does pick the edit branch exactly when the message is older than 48
hours and the delete branch otherwise, but the edit call passes
ctx.callbackQuery.from.id and message.chat.id as the first two arguments
of telegram.editMessageText, whose signature is (chatId, messageId,
inlineMessageId, text): the request addresses message number -100123 in
chat 555 of the pressing user, not the originating broadcast message 777
in chat -100123. Evaluated at a press 49 hours after the message was
sent (edit branch) and one second after (delete branch). -/
theorem C3_edit_targets_wrong_message :
    removeHandler "/data" "aa.jpg" 555 (some mOld) 1700176400000 none none
      = [BotAct.fsAccess "/data/aa.jpg" true,
         BotAct.fsRm "/data/aa.jpg",
         BotAct.logInfo "file aa.jpg is removed.",
         BotAct.editMessageText 555 (-100123) "File aa.jpg has been removed.",
         BotAct.answerCb "Delete aa.jpg success." (some 3600) true]
    ∧ (555 : Int) ≠ mOld.chat_id
    ∧ (-100123 : Int) ≠ mOld.message_id
    ∧ (∀ t, BotAct.editMessageText mOld.chat_id mOld.message_id t
        ∉ removeHandler "/data" "aa.jpg" 555 (some mOld) 1700176400000 none none)
    ∧ removeHandler "/data" "aa.jpg" 555 (some mOld) 1700000001000 none none
      = [BotAct.fsAccess "/data/aa.jpg" true,
         BotAct.fsRm "/data/aa.jpg",
         BotAct.logInfo "file aa.jpg is removed.",
         BotAct.deleteMessage (-100123) 777,
         BotAct.answerCb "Delete aa.jpg success." (some 3600) true] := by
  refine ⟨by decide, by decide, by decide, ?_, by decide⟩
  intro t
  rw [show removeHandler "/data" "aa.jpg" 555 (some mOld) 1700176400000 none none
      = [BotAct.fsAccess "/data/aa.jpg" true,
         BotAct.fsRm "/data/aa.jpg",
         BotAct.logInfo "file aa.jpg is removed.",
         BotAct.editMessageText 555 (-100123) "File aa.jpg has been removed.",
         BotAct.answerCb "Delete aa.jpg success." (some 3600) true] from by decide]
  simp [mOld]

/-- Claim C10. A remove callback whose query carries no message object is
acknowledged with the text Internal error. at cache duration 0 (after a
warn log line), and nothing else happens: no filesystem probe, no
deletion, no message edit, no message delete. -/
theorem C10_remove_without_message :
    ∀ (savePath file : String) (fromId now : Int)
      (access rmRes : Option FsErr),
      removeHandler savePath file fromId none now access rmRes
        = [BotAct.logWarn "message is null.",
           BotAct.answerCb "Internal error." (some 0) false] :=
  fun _ _ _ _ _ _ => rfl

/-- Claim C6. The exist handler probes read access to savePath/file and
acknowledges: on success a text containing "is exist", on an ENOENT
failure a text containing the words saying it does not exist (with an
escaped apostrophe in the string), on any other filesystem error a generic failure text after
logging the error at error severity; all three acknowledgments carry
cache duration 0. -/
theorem C6_exist_handler_branches :
    ∀ (savePath file e : String),
    existHandler savePath file none
      = [BotAct.fsAccess (pathJoin savePath file) false,
         BotAct.answerCb ("File " ++ file ++ " is exist.") (some 0) false]
    ∧ existHandler savePath file (some (FsErr.enoent e))
      = [BotAct.fsAccess (pathJoin savePath file) false,
         BotAct.answerCb ("File " ++ file ++ " isn\x27t exist.") (some 0) false]
    ∧ existHandler savePath file (some (FsErr.other e))
      = [BotAct.fsAccess (pathJoin savePath file) false,
         BotAct.logError e,
         BotAct.answerCb "Fail to resolve file." (some 0) false]
    ∧ (∃ pre post, "File " ++ file ++ " is exist." = pre ++ "is exist" ++ post)
    ∧ (∃ pre post, "File " ++ file ++ " isn\x27t exist." = pre ++ "isn\x27t exist" ++ post) := by
  intro savePath file e
  refine ⟨rfl, rfl, rfl, ⟨"File " ++ file ++ " ", ".", ?_⟩, ⟨"File " ++ file ++ " ", ".", ?_⟩⟩
  · apply congrArg String.mk
    simp [List.append_assoc]
  · apply congrArg String.mk
    simp [List.append_assoc]

/-- Claim C5. A remove callback on an already-absent file (the probe
fails with ENOENT): no filesystem mutation appears in the trace, the
press is still acknowledged and the only acknowledgment is the
has-been-removed text (so no failure is surfaced). A probe failure of
any other kind: the trace is exactly probe, error log and failure
acknowledgment, so the handler aborts with no mutation, no edit and no
delete. -/
theorem C5_remove_absent_file :
    ∀ (savePath file e : String) (fromId now : Int) (m : CbMessage)
      (rmRes : Option FsErr),
    ((∀ a ∈ removeHandler savePath file fromId (some m) now (some (FsErr.enoent e)) rmRes,
        isFsMutation a = false)
     ∧ BotAct.answerCb ("File" ++ file ++ " has been removed.") (some 3600) true
        ∈ removeHandler savePath file fromId (some m) now (some (FsErr.enoent e)) rmRes
     ∧ (∀ t c al, BotAct.answerCb t c al
          ∈ removeHandler savePath file fromId (some m) now (some (FsErr.enoent e)) rmRes →
          t = "File" ++ file ++ " has been removed." ∧ c = some 3600 ∧ al = true))
    ∧ removeHandler savePath file fromId (some m) now (some (FsErr.other e)) rmRes
      = [BotAct.fsAccess (pathJoin savePath file) true,
         BotAct.logError e,
         BotAct.answerCb ("Fail to resolve file " ++ file ++ " .") (some 0) false] := by
  intro savePath file e fromId now m rmRes
  refine ⟨⟨?_, ?_, ?_⟩, rfl⟩
  · intro a ha
    simp only [removeHandler, removeFinal, List.mem_cons, List.mem_append,
      List.mem_singleton, List.not_mem_nil, or_false, Bool.false_eq_true, if_false] at ha
    rcases ha with h | h | h
    · subst h; rfl
    · split at h <;> rw [List.mem_singleton] at h <;> subst h <;> rfl
    · subst h; rfl
  · simp only [removeHandler, removeFinal, List.mem_cons, List.mem_append,
      List.mem_singleton, List.not_mem_nil, or_false, Bool.false_eq_true, if_false]
    tauto
  · intro t c al h
    simp only [removeHandler, removeFinal, List.mem_cons, List.mem_append,
      List.mem_singleton, List.not_mem_nil, or_false, Bool.false_eq_true, if_false] at h
    rcases h with h | h | h
    · exact absurd h (by simp)
    · split at h <;> rw [List.mem_singleton] at h <;> exact absurd h (by simp)
    · exact ⟨by injection h, by injection h, by injection h⟩

/-- Claim C4. For an inbound message carrying a nonempty photo set, the
resolver returns the variant with the maximum declared size, an absent
size counting as 0 (as `p.file_size || 0` reads it), and among equal
maxima the first-encountered variant: the selected variant is in the
list, the key of every variant is at most its key, and every variant strictly
before it has a strictly smaller key. -/
theorem C4_largest_photo_selected (m : Msg) (l : List PhotoSize)
    (h1 : m.photo = some l) (h2 : l ≠ []) :
    ∃ r l₁ l₂,
      selectPhoto l = some r
      ∧ getFileIds m = some (FileRec.mk "photo" r.file_id r.file_unique_id r.file_size)
      ∧ l = l₁ ++ r :: l₂
      ∧ (∀ p ∈ l, photoKey p ≤ photoKey r)
      ∧ (∀ p ∈ l₁, photoKey p < photoKey r) := by
  obtain ⟨r, l₁, l₂, hfm, hdec, hmax, hfirst⟩ := firstMax_decomp photoKey l h2
  have hsel : selectPhoto l = some r := (selectPhoto_eq l).trans hfm
  refine ⟨r, l₁, l₂, hsel, ?_, hdec, hmax, hfirst⟩
  simp only [getFileIds, h1, hsel]

/-- Witness for claim C4 at a concrete photo set with a size tie. -/
theorem C4_witness :
    mPhotoW.photo = some photosW ∧ photosW ≠ []
    ∧ ∃ r l₁ l₂,
        selectPhoto photosW = some r
        ∧ getFileIds mPhotoW = some (FileRec.mk "photo" r.file_id r.file_unique_id r.file_size)
        ∧ photosW = l₁ ++ r :: l₂
        ∧ (∀ p ∈ photosW, photoKey p ≤ photoKey r)
        ∧ (∀ p ∈ l₁, photoKey p < photoKey r) :=
  ⟨rfl, by decide, C4_largest_photo_selected mPhotoW photosW rfl (by decide)⟩

/-- Claim C7. The escaping applied to interpolated values equals the
one-pass substitution replacing exactly the three characters ampersand,
less-than and greater-than by their entities (the three sequential global
replaces do not disturb each other); any other character is left
unchanged; the template combinator keeps every literal format part
verbatim, escaping only the interpolated values; and the input "<b>&"
renders as its three entities. -/
theorem C7_escape_exact :
    (∀ s : String, escValue s = escSpec s)
    ∧ (∀ c : Char, c ≠ '&' → c ≠ '<' → c ≠ '>' → escCharSpec c = [c])
    ∧ (∀ fs ps : List String, fs.length = ps.length + 1 →
        escapeTemplate fs ps = specInterleave fs ps)
    ∧ escValue "<b>&" = "&lt;b&gt;&amp;" := by
  have hval : ∀ s : String, escValue s = escSpec s := by
    intro s
    unfold escValue escSpec
    rw [escValueChars_eq_spec]
  refine ⟨hval, ?_, ?_, by decide⟩
  · intro c h1 h2 h3
    simp [escCharSpec, h1, h2, h3]
  · intro fs ps
    induction ps generalizing fs with
    | nil =>
      intro _
      cases fs with
      | nil => rfl
      | cons f fs' => rfl
    | cons p ps' ih =>
      intro hlen
      cases fs with
      | nil => simp at hlen
      | cons f fs' =>
        show f ++ escValue p ++ escapeTemplate fs' ps'
          = f ++ escSpec p ++ specInterleave fs' ps'
        rw [hval p, ih fs' (by simpa using hlen)]

/-- Claim C8. Within one process lifetime, the sequence numbers handed
out by successive createThread calls for a fixed label are exactly
1, 2, 3, ... in call order (List.range' 1 n), for any interleaving with
other labels: they start at 1, increase by exactly 1 at each call for
that label, and never repeat or go backward. -/
theorem C8_thread_sequence :
    ∀ (labels : List String) (L : String),
      ((labels.zip (threadIds labels)).filter (fun p => p.1 == L)).map Prod.snd
        = List.range' 1 (labels.count L) := by
  intro labels L
  have := idsFrom_filter L labels (fun _ => 0)
  simpa [threadIds] using this

/-- Claim C9. internalLog evaluates new Date().toISOString() once, when
the severity writer is constructed at module load, and the baseLogger
closure carries that string in its captured patterns: every line a base
severity writer emits, and every line of a thread-scoped writer wrapping
it, has the captured construction-time string as its bracketed timestamp
segment, whatever is logged and whenever the call happens; in
particular all emitted lines of one severity carry the identical
timestamp. The hypothesis states that an ISO-8601 timestamp contains no
closing bracket. -/
theorem C9_frozen_timestamp (t0 lvl name body : String) (hasStop debugUnset : Bool)
    (h : ∀ c ∈ t0.toList, c ≠ ']') :
    (∀ line, internalLogW t0 lvl hasStop debugUnset body [] = some line →
      isoSegment line = t0)
    ∧ (∀ line, getLoggerW name (internalLogW t0 lvl hasStop) debugUnset body [] = some line →
      isoSegment line = t0) := by
  constructor
  · intro line hline
    unfold internalLogW makeLoggerW consoleSink at hline
    by_cases hs : (hasStop && debugUnset) = true
    · rw [if_pos hs] at hline; cases hline
    · rw [if_neg hs] at hline
      injection hline with hline
      subst hline
      exact isoSegment_line t0 _ _ h
  · intro line hline
    unfold getLoggerW internalLogW makeLoggerW consoleSink at hline
    simp only [Bool.false_and, Bool.and_self, if_false] at hline
    by_cases hs : (hasStop && debugUnset) = true
    · rw [if_pos hs] at hline; cases hline
    · rw [if_neg hs] at hline
      injection hline with hline
      subst hline
      exact isoSegment_line t0 _ _ h

/-- Witness for claim C9 at a concrete construction timestamp, base info
writer and a thread-scoped writer. -/
theorem C9_witness :
    isoSegment ((internalLogW "2024-01-02T03:04:05.678Z" "info" false false "hello" []).getD "")
      = "2024-01-02T03:04:05.678Z"
    ∧ isoSegment ((getLoggerW "onMessage:1"
          (internalLogW "2024-01-02T03:04:05.678Z" "info" false) false "hello" []).getD "")
      = "2024-01-02T03:04:05.678Z" :=
  ⟨(C9_frozen_timestamp "2024-01-02T03:04:05.678Z" "info" "onMessage:1" "hello" false false
      (by decide)).1 _ rfl,
   (C9_frozen_timestamp "2024-01-02T03:04:05.678Z" "info" "onMessage:1" "hello" false false
      (by decide)).2 _ rfl⟩
